import Mathlib

/-!
# Userspace thread scheduler (`scheduler.c`)

A shallow embedding of `scheduler.c`.

* The singly linked thread list (`head`, `link`) is a `List thread`; a pointer to a
  node of the list is the position of that node, and `NULL` is `none`.
* Addresses are natural numbers, `0` is `NULL`.
* `malloc` is an oracle: every call of `scheduler_create` is given the two pointers
  its two `malloc` calls return.  The calls of `malloc` and `FREE` are recorded in a
  log kept next to the scheduler globals.
* `setjmp`/`longjmp` transfers are modelled by who holds control (`Control`).  Of the
  `jmp_buf` of a thread only what matters for the next `longjmp` into it is kept
  (`Saved`, next to the globals in `Machine`).
-/

namespace Scheduler

/-! ## Data model -/

/-- The stack size, `#define SZ_STACK 1048576`. -/
def SZ_STACK : Nat := 1048576

/-- The anonymous `enum` of `struct thread`. -/
inductive Status where
  | INIT
  | RUNNING
  | SLEEPING
  | TERMINATED
deriving DecidableEq, Repr

/-- The record `struct thread`, without `ctx` and with `link` given by the position in
the list.  `self` is the address of the control block itself (what `malloc` returned for it). -/
structure thread where
  self : Nat
  memory : Nat
  memory_ : Nat
  arg : Nat
  fnc : Nat
  status : Status
deriving DecidableEq, Repr

/-- One call of `malloc` that returned a block, or one call of `FREE`. -/
inductive MemEvent where
  | malloc (p : Nat) (size : Nat)
  | free (p : Nat)
deriving DecidableEq, Repr

/-- The globals `head` and `currThread`, and the log of allocator calls (oldest first).
`currThread` is the position of the node it points to, `none` for `NULL`. -/
structure Sched where
  head : List thread
  currThread : Option Nat
  mem : List MemEvent
deriving DecidableEq, Repr

/-- What `system.h` provides to `scheduler_create`: `page_size()`, `memory_align` and
the size of a control block. -/
structure Env where
  page_size : Nat
  memory_align : Nat → Nat → Nat
  sizeof_thread : Nat

/-- The results of the two `malloc` calls of one `scheduler_create` call
(`0` when the call fails). -/
structure Mallocs where
  thread_ptr : Nat
  stack_ptr : Nat
deriving DecidableEq, Repr

/-- Modelled from the spec: the `FREE` macro of `system.h` is not in the source tree; it
releases the block its argument points to. -/
def FREE (p : Nat) (mem : List MemEvent) : List MemEvent :=
  mem ++ [MemEvent.free p]

/-- A successful `malloc(size)` returning `p`. -/
def malloc_ok (p size : Nat) (mem : List MemEvent) : List MemEvent :=
  mem ++ [MemEvent.malloc p size]

/-- Modelled from the spec: `memory_align` of `system.c` is not in the source tree; it is
taken as the least multiple of `n` that is at least `p`. -/
def memory_align (p n : Nat) : Nat :=
  if p % n = 0 then p else p + (n - p % n)

/-- The pointers handed out by `malloc` in a log. -/
def malloc_ptrs : List MemEvent → List Nat
  | [] => []
  | MemEvent.malloc p _ :: rest => p :: malloc_ptrs rest
  | MemEvent.free _ :: rest => malloc_ptrs rest

/-- The pointers released by `FREE` in a log. -/
def freed_ptrs : List MemEvent → List Nat
  | [] => []
  | MemEvent.malloc _ _ :: rest => freed_ptrs rest
  | MemEvent.free p :: rest => p :: freed_ptrs rest

/-! ## `scheduler_create` and `destroy` -/

/-- The state before any registration: `head = NULL`, `currThread = NULL`. -/
def init : Sched :=
  { head := [], currThread := none, mem := [] }

/-- The function `scheduler_create(fnc, arg)`: returns the `int` result and the new
globals. -/
def scheduler_create (env : Env) (m : Mallocs) (s : Sched) (fnc arg : Nat) : Int × Sched :=
  if m.thread_ptr = 0 then
    (-1, s)
  else
    let mem1 := malloc_ok m.thread_ptr env.sizeof_thread s.mem
    if m.stack_ptr = 0 then
      (-1, { s with mem := FREE m.thread_ptr mem1 })
    else
      let mem2 := malloc_ok m.stack_ptr (SZ_STACK + env.page_size) mem1
      let aligned := env.memory_align m.stack_ptr env.page_size
      if aligned = 0 then
        (-1, { s with mem := FREE m.thread_ptr (FREE m.stack_ptr mem2) })
      else
        let t : thread :=
          { self := m.thread_ptr, memory := aligned, memory_ := m.stack_ptr,
            arg := arg, fnc := fnc, status := Status.INIT }
        (0, { head := t :: s.head, currThread := some 0, mem := mem2 })

/-- The `while (t)` loop of `destroy`, from the node that starts `l`. -/
def destroy_loop : List thread → List MemEvent → List MemEvent
  | [], mem => mem
  | t :: rest, mem => destroy_loop rest (FREE t.self (FREE t.memory_ mem))

/-- The function `destroy()`.  The globals `head` and `currThread` are not reset by the
code. -/
def destroy (s : Sched) : Sched :=
  { s with mem := destroy_loop s.head s.mem }

/-- One registration request: the arguments of a `scheduler_create` call and what its
`malloc` calls return. -/
structure Call where
  fnc : Nat
  arg : Nat
  m : Mallocs
deriving DecidableEq, Repr

/-- The state after a sequence of `scheduler_create` calls (oldest first). -/
def registered (env : Env) (calls : List Call) : Sched :=
  calls.foldl (fun s c => (scheduler_create env c.m s c.fnc c.arg).2) init

/-- All three allocation steps of a call succeed. -/
def Call.succeeds (env : Env) (c : Call) : Prop :=
  c.m.thread_ptr ≠ 0 ∧ c.m.stack_ptr ≠ 0 ∧
    env.memory_align c.m.stack_ptr env.page_size ≠ 0

/-! ## `candidate`, `schedule`, `scheduler_yield`, `handler` -/

/-- The test `t->status == INIT || t->status == SLEEPING`. -/
def runnable (t : thread) : Bool :=
  t.status = Status.INIT || t.status = Status.SLEEPING

/-- The `while (t)` loop of `candidate`: `l` is the list from node `t` on and `i` the
position of `t`; the result is the position of the node returned, `none` for `NULL`. -/
def candidate_loop : List thread → Nat → Option Nat
  | [], _ => none
  | t :: rest, i => if runnable t then some i else candidate_loop rest (i + 1)

/-- The function `candidate()`.  `t->link == NULL` holds exactly when `currThread` is the
last node. -/
def candidate (s : Sched) : Option Nat :=
  match s.currThread with
  | none => candidate_loop s.head 0
  | some c =>
    if c + 1 < s.head.length then candidate_loop (s.head.drop (c + 1)) (c + 1)
    else candidate_loop s.head 0

/-- The assignment `t->status = st` for the node at position `i`. -/
def set_status : List thread → Nat → Status → List thread
  | [], _, _ => []
  | t :: rest, 0, st => { t with status := st } :: rest
  | t :: rest, i + 1, st => t :: set_status rest i st

/-- Who holds control.
* `master`: the scheduler, at its `setjmp(ctx)` point about to call `schedule()`;
* `thread`: thread `currThread`, inside its entry function;
* `leaving`: thread `currThread`, on its way back to the scheduler: its next statement
  is the `longjmp(ctx, 1)` of `schedule()` (after `t->status = TERMINATED`) or of
  `scheduler_yield()` (after `currThread->status = SLEEPING`);
* `exited`: `scheduler_execute`, `schedule()` has returned and `destroy()` is next. -/
inductive Control where
  | master
  | thread
  | exited
  | leaving
deriving DecidableEq, Repr

/-- What the `ctx` of a thread holds when a `longjmp` into it does not resume the thread
inside its entry function.
* `at_longjmp`: saved by `scheduler_yield()` called from `handler` while the thread was
  `leaving`; the `longjmp` lands in the handler, the handler returns and the interrupted
  `longjmp(ctx, 1)` runs;
* `dead`: saved by `scheduler_yield()` called from `handler` on the stack of the
  scheduler; the frames are gone once the scheduler runs on. -/
inductive Saved where
  | at_longjmp
  | dead
deriving DecidableEq, Repr

/-- The globals, who holds control, and the threads (by position) whose `ctx` does not
resume them inside their entry function.  A thread not listed has no `ctx` yet or one
that resumes it inside its entry function. -/
structure Machine where
  sched : Sched
  ctl : Control
  saved : List (Nat × Saved) := []
deriving DecidableEq, Repr

/-- The part of `schedule()` after `candidate()` returned node `t`: `currThread = t`,
then in both branches `t->status = RUNNING` and control passes to the thread. -/
def dispatch (s : Sched) (t : Nat) : Sched :=
  { s with currThread := some t, head := set_status s.head t Status.RUNNING }

/-- The value of `rsp` on first dispatch, `(uint64_t)t->stack.memory + SZ_STACK`. -/
def stack_top (memory : Nat) : Nat :=
  (memory + SZ_STACK) % 2 ^ 64

/-- The function `schedule()`: returns to `scheduler_execute` when `candidate()` is
`NULL`, otherwise control passes to the chosen thread. -/
def schedule (s : Sched) : Machine :=
  match candidate s with
  | none => { sched := s, ctl := Control.exited }
  | some t => { sched := dispatch s t, ctl := Control.thread }

/-- The function `scheduler_yield()` on the path where `setjmp` returns 0:
`currThread->status = SLEEPING`, then `longjmp(ctx, 1)`.  `none` is the dereference of a
`NULL` `currThread`. -/
def scheduler_yield (s : Sched) : Option Sched :=
  match s.currThread with
  | none => none
  | some c => some { s with head := set_status s.head c Status.SLEEPING }

/-- The return of the entry function in `schedule()`: `t->status = TERMINATED`, then
`longjmp(ctx, 1)`; `t` is the thread that holds control, which is `currThread`. -/
def thread_return (s : Sched) : Option Sched :=
  match s.currThread with
  | none => none
  | some c => some { s with head := set_status s.head c Status.TERMINATED }

/-- The signal number of `SIGALRM`. -/
def SIGALRM : Nat := 14

/-- The function `handler(sig)`: for `SIGALRM` it re-arms the alarm and calls
`scheduler_yield()`; the result says whether control went back to the scheduler. -/
def handler (sig : Nat) (s : Sched) : Option (Sched × Bool) :=
  if sig = SIGALRM then (scheduler_yield s).map (fun s1 => (s1, true))
  else some (s, false)

/-- What can happen next.
* `dispatch`: the scheduler calls `schedule()`;
* `yield`: the running thread calls `scheduler_yield()` and no signal arrives before its
  `longjmp`;
* `ret`: the entry function of the running thread returns and no signal arrives before
  the `longjmp` of `schedule()`;
* `alarm`: `SIGALRM` is delivered and `handler` runs;
* `mark_sleeping`: the running thread calls `scheduler_yield()`, which gets as far as
  `currThread->status = SLEEPING`;
* `mark_terminated`: the entry function of the running thread returns and `schedule()`
  gets as far as `t->status = TERMINATED`;
* `jump_master`: the pending `longjmp(ctx, 1)` of a `leaving` thread. -/
inductive Event where
  | dispatch
  | yield
  | ret
  | alarm
  | mark_sleeping
  | mark_terminated
  | jump_master
deriving DecidableEq, Repr

/-- Drop the entry of thread `c`. -/
def forget (l : List (Nat × Saved)) (c : Nat) : List (Nat × Saved) :=
  l.filter (fun p => decide (p.1 ≠ c))

/-- Replace the entry of thread `c`. -/
def record (l : List (Nat × Saved)) (c : Nat) (k : Saved) : List (Nat × Saved) :=
  (c, k) :: forget l c

/-- The effect of `setjmp(currThread->ctx)` in `scheduler_yield()` on what is known of
the saved contexts; it depends on where the call is made from. -/
def save_ctx (m : Machine) : List (Nat × Saved) :=
  match m.sched.currThread with
  | none => m.saved
  | some c =>
    match m.ctl with
    | Control.thread => forget m.saved c
    | Control.leaving => record m.saved c Saved.at_longjmp
    | Control.master => record m.saved c Saved.dead
    | Control.exited => record m.saved c Saved.dead

/-- Where control is after `schedule()` has dispatched node `t`: an `INIT` thread starts
its entry function; otherwise `longjmp(t->ctx, 1)` lands where `ctx` was saved.  `none`
is a jump into a dead context. -/
def entry_point (m : Machine) (t : Nat) : Option Control :=
  match m.sched.head[t]? with
  | none => none
  | some th =>
    if th.status = Status.INIT then some Control.thread
    else
      match m.saved.lookup t with
      | none => some Control.thread
      | some Saved.at_longjmp => some Control.leaving
      | some Saved.dead => none

/-- One step of a run of `scheduler_execute`; `none` when the event cannot happen in
this state.  `SIGALRM` is delivered at the points `Control` tells apart: while the
scheduler holds control (before a call of `schedule()` or after its return), while a
thread is inside its entry function (forced preemption), and while a thread is between
its status write and its `longjmp(ctx, 1)`.  A signal in the middle of `schedule()` or
before the status write of `scheduler_yield()` is not among the events. -/
def step (m : Machine) : Event → Option Machine
  | Event.dispatch =>
    if m.ctl = Control.master then
      match candidate m.sched with
      | none => some { schedule m.sched with saved := m.saved }
      | some t =>
        match entry_point m t with
        | none => none
        | some c => some { schedule m.sched with ctl := c, saved := m.saved }
    else none
  | Event.yield =>
    if m.ctl = Control.thread then
      (scheduler_yield m.sched).map
        (fun s => { sched := s, ctl := Control.master, saved := save_ctx m })
    else none
  | Event.ret =>
    if m.ctl = Control.thread then
      (thread_return m.sched).map
        (fun s => { sched := s, ctl := Control.master, saved := m.saved })
    else none
  | Event.alarm =>
    (handler SIGALRM m.sched).map
      (fun r => { sched := r.1, ctl := if r.2 then Control.master else m.ctl,
                  saved := save_ctx m })
  | Event.mark_sleeping =>
    if m.ctl = Control.thread then
      (scheduler_yield m.sched).map
        (fun s => { sched := s, ctl := Control.leaving, saved := save_ctx m })
    else none
  | Event.mark_terminated =>
    if m.ctl = Control.thread then
      (thread_return m.sched).map
        (fun s => { sched := s, ctl := Control.leaving, saved := m.saved })
    else none
  | Event.jump_master =>
    if m.ctl = Control.leaving then some { m with ctl := Control.master } else none

/-- A run: the events are applied in order. -/
def run_events : Machine → List Event → Option Machine
  | m, [] => some m
  | m, e :: rest =>
    match step m e with
    | none => none
    | some m1 => run_events m1 rest

/-- The start of `scheduler_execute`: the timer is armed and the scheduler is at its
`setjmp(ctx)` point. -/
def boot (s : Sched) : Machine :=
  { sched := s, ctl := Control.master }

/-- How a dispatched thread gives control back. -/
inductive Action where
  | yield
  | ret
deriving DecidableEq, Repr

/-- The effect of a dispatched thread giving control back. -/
def relinquish (a : Action) (s : Sched) : Option Sched :=
  match a with
  | Action.yield => scheduler_yield s
  | Action.ret => thread_return s

/-- The positions of the threads dispatched by the loop of `scheduler_execute`, in
order, when the dispatched threads behave as `acts` says (one action per dispatch). -/
def dispatch_order : List Action → Sched → List Nat
  | acts, s =>
    match candidate s with
    | none => []
    | some t =>
      t :: (match acts with
        | [] => []
        | a :: rest =>
          match relinquish a (dispatch s t) with
          | none => []
          | some s1 => dispatch_order rest s1)

/-- The loop formed by `setjmp(ctx); schedule();` in `scheduler_execute`: every
`longjmp(ctx, 1)` of a thread giving control back calls `schedule()` again.  The result
is the state in which `schedule()` returns, `none` when `acts` ends while a thread still
holds control. -/
def scheduler_loop : List Action → Sched → Option Sched
  | acts, s =>
    match candidate s with
    | none => some s
    | some t =>
      match acts with
      | [] => none
      | a :: rest =>
        match relinquish a (dispatch s t) with
        | none => none
        | some s1 => scheduler_loop rest s1

/-- The function `scheduler_execute()`: the scheduling loop, then `destroy()`. -/
def scheduler_execute (acts : List Action) (s : Sched) : Option Sched :=
  (scheduler_loop acts s).map destroy

/-- The round-robin order of the spec over `n` positions: start right after position
`c` and wrap from the tail to the head. -/
def round_robin_order (n c : Nat) : List Nat :=
  (List.range n).map (fun k => (c + 1 + k) % n)

/-- The pointers a thread list owns, in the order `destroy` walks them: for each control
block its raw stack `stack.memory_`, then the block itself. -/
def owned_ptrs : List thread → List Nat
  | [] => []
  | t :: rest => t.memory_ :: t.self :: owned_ptrs rest

/-- The status invariant of a run without signals: while a thread is inside its entry
function no thread other than `currThread` is `RUNNING`; otherwise no thread is
`RUNNING`; every saved context resumes its thread inside its entry function. -/
def RunInv (m : Machine) : Prop :=
  (m.ctl = Control.thread →
    ∃ c, m.sched.currThread = some c ∧
      ∀ i t, m.sched.head[i]? = some t → t.status = Status.RUNNING → i = c) ∧
  (m.ctl ≠ Control.thread → ∀ t ∈ m.sched.head, t.status ≠ Status.RUNNING) ∧
  m.saved = []

/-! ## Sample inputs -/

/-- A platform with 4096-byte pages. -/
def env0 : Env :=
  { page_size := 4096, memory_align := memory_align, sizeof_thread := 256 }

/-- A registration whose allocations succeed. -/
def callA : Call :=
  { fnc := 1, arg := 10, m := { thread_ptr := 1000, stack_ptr := 100001 } }

/-- A second registration whose allocations succeed. -/
def callB : Call :=
  { fnc := 2, arg := 20, m := { thread_ptr := 2000, stack_ptr := 2000001 } }

/-- A registration whose stack allocation fails. -/
def callNoStack : Call :=
  { fnc := 3, arg := 30, m := { thread_ptr := 3000, stack_ptr := 0 } }

/-- A thread with the given status. -/
def sample_thread (st : Status) : thread :=
  { self := 1000, memory := 102400, memory_ := 100001, arg := 10, fnc := 1, status := st }

/-- A list in which the thread right after `currThread` is finished. -/
def sample_mid : Sched :=
  { head := [sample_thread Status.SLEEPING, sample_thread Status.TERMINATED,
      sample_thread Status.INIT],
    currThread := some 0, mem := [] }

/-- The head is asleep, the other thread is finished, and `currThread` is the head. -/
def stalled : Sched :=
  { head := [{ self := 2000, memory := 2002944, memory_ := 2000001, arg := 20, fnc := 2,
               status := Status.SLEEPING },
             { self := 1000, memory := 102400, memory_ := 100001, arg := 10, fnc := 1,
               status := Status.TERMINATED }],
    currThread := some 0,
    mem := [MemEvent.malloc 1000 256, MemEvent.malloc 100001 1052672,
      MemEvent.malloc 2000 256, MemEvent.malloc 2000001 1052672] }

/-- Two threads registered, the older one dispatched and put to sleep, the newer one
now running. -/
def sample_running : Machine :=
  { sched :=
      { head := [{ self := 2000, memory := 2002944, memory_ := 2000001, arg := 20, fnc := 2,
                   status := Status.RUNNING },
                 { self := 1000, memory := 102400, memory_ := 100001, arg := 10, fnc := 1,
                   status := Status.SLEEPING }],
        currThread := some 0,
        mem := [MemEvent.malloc 1000 256, MemEvent.malloc 100001 1052672,
          MemEvent.malloc 2000 256, MemEvent.malloc 2000001 1052672] },
    ctl := Control.thread }

/-! ## Alignment -/

theorem memory_align_dvd (b p : Nat) (hp : 0 < p) : p ∣ memory_align b p := by
  unfold memory_align
  split
  · next h => exact Nat.dvd_of_mod_eq_zero h
  · next h =>
    have hlt : b % p < p := Nat.mod_lt b hp
    have hb : p * (b / p) + b % p = b := Nat.div_add_mod b p
    have : b + (p - b % p) = p * (b / p + 1) := by
      rw [Nat.mul_add, Nat.mul_one]; omega
    rw [this]
    exact Nat.dvd_mul_right p _

theorem memory_align_ge (b p : Nat) : b ≤ memory_align b p := by
  unfold memory_align
  split <;> omega

theorem memory_align_lt (b p : Nat) (hp : 0 < p) : memory_align b p < b + p := by
  unfold memory_align
  have hlt : b % p < p := Nat.mod_lt b hp
  split <;> omega

theorem memory_align_least (b p m : Nat) (hp : 0 < p) (hm : p ∣ m) (hbm : b ≤ m) :
    memory_align b p ≤ m := by
  unfold memory_align
  split
  · exact hbm
  · next h =>
    obtain ⟨k, rfl⟩ := hm
    have hlt : b % p < p := Nat.mod_lt b hp
    have hb : p * (b / p) + b % p = b := Nat.div_add_mod b p
    have hk : b / p < k := by
      by_contra hle
      have hle : k ≤ b / p := Nat.le_of_not_lt hle
      have : p * k ≤ p * (b / p) := Nat.mul_le_mul_left p hle
      omega
    have : p * (b / p + 1) ≤ p * k := Nat.mul_le_mul_left p hk
    rw [Nat.mul_add, Nat.mul_one] at this
    omega

/-- C10: for every base address `b` and page size `p > 0`, the aligned base
`a = memory_align b p` (the least multiple of `p` that is at least `b`) is a multiple of
`p`, the region `[a, a + SZ_STACK)` lies inside the raw allocation
`[b, b + SZ_STACK + p)`, and the initial stack pointer `a + SZ_STACK` computed at first
dispatch does not pass the end of the allocation (and is computed without wrap-around
when the allocation lies in the 64-bit address space). -/
theorem aligned_stack_within_allocation (b p : Nat) (hp : 0 < p) :
    p ∣ memory_align b p ∧
    (∀ m, p ∣ m → b ≤ m → memory_align b p ≤ m) ∧
    b ≤ memory_align b p ∧
    memory_align b p + SZ_STACK ≤ b + (SZ_STACK + p) ∧
    stack_top (memory_align b p) ≤ b + (SZ_STACK + p) ∧
    (b + (SZ_STACK + p) ≤ 2 ^ 64 →
      stack_top (memory_align b p) = memory_align b p + SZ_STACK) := by
  have hlt := memory_align_lt b p hp
  have hge := memory_align_ge b p
  refine ⟨memory_align_dvd b p hp, fun m hm hbm => memory_align_least b p m hp hm hbm, hge,
    by omega, ?_, ?_⟩
  · unfold stack_top
    exact Nat.le_trans (Nat.mod_le _ _) (by omega)
  · intro hfit
    unfold stack_top
    exact Nat.mod_eq_of_lt (by omega)

theorem aligned_stack_within_allocation_witness :
    0 < 4096 ∧ 4096 ∣ memory_align 100001 4096 ∧ memory_align 100001 4096 = 102400 ∧
    stack_top (memory_align 100001 4096) = 102400 + SZ_STACK :=
  ⟨by decide, (aligned_stack_within_allocation 100001 4096 (by decide)).1, by decide,
    by decide⟩

/-! ## Registration -/

/-- C4: when the control block, the raw stack and the alignment are all obtained,
`scheduler_create` returns 0, the new list is the old list with one new control block in
front, that block is `INIT` with the given entry function and argument (and owns the two
pointers just allocated), `currThread` points to it, and the old blocks are unchanged. -/
theorem scheduler_create_success (env : Env) (m : Mallocs) (s : Sched) (fnc arg : Nat)
    (h1 : m.thread_ptr ≠ 0) (h2 : m.stack_ptr ≠ 0)
    (h3 : env.memory_align m.stack_ptr env.page_size ≠ 0) :
    (scheduler_create env m s fnc arg).1 = 0 ∧
    (scheduler_create env m s fnc arg).2.head =
      { self := m.thread_ptr, memory := env.memory_align m.stack_ptr env.page_size,
        memory_ := m.stack_ptr, arg := arg, fnc := fnc, status := Status.INIT } :: s.head ∧
    (scheduler_create env m s fnc arg).2.currThread = some 0 ∧
    (scheduler_create env m s fnc arg).2.mem =
      s.mem ++ [MemEvent.malloc m.thread_ptr env.sizeof_thread,
        MemEvent.malloc m.stack_ptr (SZ_STACK + env.page_size)] := by
  simp [scheduler_create, h1, h2, h3, malloc_ok]

theorem scheduler_create_success_witness :
    (scheduler_create env0 callA.m init callA.fnc callA.arg).1 = 0 ∧
    (scheduler_create env0 callA.m init callA.fnc callA.arg).2.head =
      [{ self := 1000, memory := 102400, memory_ := 100001, arg := 10, fnc := 1,
         status := Status.INIT }] :=
  ⟨(scheduler_create_success env0 callA.m init callA.fnc callA.arg (by decide) (by decide)
      (by decide)).1, by decide⟩

/-- C5: when the control-block allocation, the raw stack allocation or the alignment
fails, `scheduler_create` returns -1, `head` and `currThread` are what they were, and
what the attempt allocated has been released: nothing when the block allocation fails,
the block when the stack allocation fails, the stack then the block when the alignment
fails. -/
theorem scheduler_create_failure (env : Env) (m : Mallocs) (s : Sched) (fnc arg : Nat)
    (h : m.thread_ptr = 0 ∨ m.stack_ptr = 0 ∨
      env.memory_align m.stack_ptr env.page_size = 0) :
    (scheduler_create env m s fnc arg).1 = -1 ∧
    (scheduler_create env m s fnc arg).2.head = s.head ∧
    (scheduler_create env m s fnc arg).2.currThread = s.currThread ∧
    ∃ ev, (scheduler_create env m s fnc arg).2.mem = s.mem ++ ev ∧
      freed_ptrs ev = (malloc_ptrs ev).reverse ∧
      (m.thread_ptr = 0 → ev = []) ∧
      (m.thread_ptr ≠ 0 → m.stack_ptr = 0 →
        ev = [MemEvent.malloc m.thread_ptr env.sizeof_thread, MemEvent.free m.thread_ptr]) ∧
      (m.thread_ptr ≠ 0 → m.stack_ptr ≠ 0 →
        ev = [MemEvent.malloc m.thread_ptr env.sizeof_thread,
          MemEvent.malloc m.stack_ptr (SZ_STACK + env.page_size),
          MemEvent.free m.stack_ptr, MemEvent.free m.thread_ptr]) := by
  by_cases h1 : m.thread_ptr = 0
  · refine ⟨by simp [scheduler_create, h1], by simp [scheduler_create, h1],
      by simp [scheduler_create, h1], [], by simp [scheduler_create, h1], rfl,
      fun _ => rfl, fun hne => absurd h1 hne, fun hne => absurd h1 hne⟩
  · by_cases h2 : m.stack_ptr = 0
    · refine ⟨by simp [scheduler_create, h1, h2], by simp [scheduler_create, h1, h2],
        by simp [scheduler_create, h1, h2],
        [MemEvent.malloc m.thread_ptr env.sizeof_thread, MemEvent.free m.thread_ptr],
        by simp [scheduler_create, h1, h2, FREE, malloc_ok], rfl,
        fun h0 => absurd h0 h1, fun _ _ => rfl, fun _ hne => absurd h2 hne⟩
    · have h3 : env.memory_align m.stack_ptr env.page_size = 0 := by
        rcases h with h | h | h
        · exact absurd h h1
        · exact absurd h h2
        · exact h
      refine ⟨by simp [scheduler_create, h1, h2, h3], by simp [scheduler_create, h1, h2, h3],
        by simp [scheduler_create, h1, h2, h3],
        [MemEvent.malloc m.thread_ptr env.sizeof_thread,
          MemEvent.malloc m.stack_ptr (SZ_STACK + env.page_size),
          MemEvent.free m.stack_ptr, MemEvent.free m.thread_ptr],
        by simp [scheduler_create, h1, h2, h3, FREE, malloc_ok], rfl,
        fun h0 => absurd h0 h1, fun _ h0 => absurd h0 h2, fun _ _ => rfl⟩

theorem scheduler_create_failure_witness :
    (scheduler_create env0 callNoStack.m (registered env0 [callA]) 3 30).1 = -1 ∧
    (scheduler_create env0 callNoStack.m (registered env0 [callA]) 3 30).2.head =
      (registered env0 [callA]).head ∧
    (scheduler_create env0 callNoStack.m (registered env0 [callA]) 3 30).2.mem =
      (registered env0 [callA]).mem ++ [MemEvent.malloc 3000 256, MemEvent.free 3000] :=
  ⟨(scheduler_create_failure env0 callNoStack.m (registered env0 [callA]) 3 30
      (Or.inr (Or.inl rfl))).1,
    (scheduler_create_failure env0 callNoStack.m (registered env0 [callA]) 3 30
      (Or.inr (Or.inl rfl))).2.1, by decide⟩

/-! ## Teardown -/

theorem malloc_ptrs_append (a b : List MemEvent) :
    malloc_ptrs (a ++ b) = malloc_ptrs a ++ malloc_ptrs b := by
  induction a with
  | nil => rfl
  | cons e rest ih => cases e <;> simp [malloc_ptrs, ih]

theorem freed_ptrs_append (a b : List MemEvent) :
    freed_ptrs (a ++ b) = freed_ptrs a ++ freed_ptrs b := by
  induction a with
  | nil => rfl
  | cons e rest ih => cases e <;> simp [freed_ptrs, ih]

/-- An induction principle for the states built by registrations. -/
theorem foldl_create_induction (env : Env) (P : Sched → Prop)
    (hstep : ∀ s (c : Call), P s → P (scheduler_create env c.m s c.fnc c.arg).2)
    (calls : List Call) (s : Sched) (hs : P s) :
    P (calls.foldl (fun s c => (scheduler_create env c.m s c.fnc c.arg).2) s) := by
  induction calls generalizing s with
  | nil => exact hs
  | cons c rest ih => exact ih _ (hstep s c hs)

/-- The same principle when every call succeeds. -/
theorem foldl_create_induction_ok (env : Env) (P : Sched → Prop)
    (hstep : ∀ s (c : Call), c.succeeds env → P s →
      P (scheduler_create env c.m s c.fnc c.arg).2)
    (calls : List Call) (hok : ∀ c ∈ calls, c.succeeds env) (s : Sched) (hs : P s) :
    P (calls.foldl (fun s c => (scheduler_create env c.m s c.fnc c.arg).2) s) := by
  induction calls generalizing s with
  | nil => exact hs
  | cons c rest ih =>
    exact ih (fun d hd => hok d (List.mem_cons_of_mem _ hd)) _
      (hstep s c (hok c (List.mem_cons_self _ _)) hs)

theorem create_ok_head (env : Env) (c : Call) (s : Sched) (h : c.succeeds env) :
    (scheduler_create env c.m s c.fnc c.arg).2 =
      { head := { self := c.m.thread_ptr,
                  memory := env.memory_align c.m.stack_ptr env.page_size,
                  memory_ := c.m.stack_ptr, arg := c.arg, fnc := c.fnc,
                  status := Status.INIT } :: s.head,
        currThread := some 0,
        mem := s.mem ++ [MemEvent.malloc c.m.thread_ptr env.sizeof_thread,
          MemEvent.malloc c.m.stack_ptr (SZ_STACK + env.page_size)] } := by
  obtain ⟨h1, h2, h3⟩ := h
  simp [scheduler_create, h1, h2, h3, malloc_ok]

theorem create_fail_head (env : Env) (c : Call) (s : Sched) (h : ¬ c.succeeds env) :
    (scheduler_create env c.m s c.fnc c.arg).2.head = s.head ∧
    (scheduler_create env c.m s c.fnc c.arg).2.currThread = s.currThread := by
  by_cases h1 : c.m.thread_ptr = 0
  · simp [scheduler_create, h1]
  · by_cases h2 : c.m.stack_ptr = 0
    · simp [scheduler_create, h1, h2]
    · have h3 : env.memory_align c.m.stack_ptr env.page_size = 0 := by
        by_contra h3
        exact h ⟨h1, h2, h3⟩
      simp [scheduler_create, h1, h2, h3]

theorem registered_ok_log (env : Env) (calls : List Call)
    (hok : ∀ c ∈ calls, c.succeeds env) :
    freed_ptrs (registered env calls).mem = [] ∧
    malloc_ptrs (registered env calls).mem =
      (owned_ptrs (registered env calls).head).reverse ∧
    (registered env calls).head.length = calls.length := by
  have key := foldl_create_induction_ok env
    (fun s => freed_ptrs s.mem = [] ∧ malloc_ptrs s.mem = (owned_ptrs s.head).reverse)
    (fun s c hc hs => by
      rw [create_ok_head env c s hc]
      simp [freed_ptrs_append, malloc_ptrs_append, freed_ptrs, malloc_ptrs, owned_ptrs,
        hs.1, hs.2])
    calls hok init ⟨rfl, rfl⟩
  refine ⟨key.1, key.2, ?_⟩
  have h : ∀ (l : List Call) (s : Sched), (∀ c ∈ l, c.succeeds env) →
      (l.foldl (fun s c => (scheduler_create env c.m s c.fnc c.arg).2) s).head.length =
        s.head.length + l.length := by
    intro l
    induction l with
    | nil => intro s _; rfl
    | cons c rest ih =>
      intro s hl
      rw [List.foldl_cons, ih _ (fun d hd => hl d (List.mem_cons_of_mem _ hd)),
        create_ok_head env c s (hl c (List.mem_cons_self _ _))]
      simp only [List.length_cons]
      omega
  have := h calls init hok
  simpa [registered, init] using this

theorem sample_calls_succeed : ∀ c ∈ [callA, callB], c.succeeds env0 := by
  intro c hc
  simp only [List.mem_cons, List.mem_singleton, List.not_mem_nil, or_false] at hc
  rcases hc with rfl | rfl
  · exact ⟨by decide, by decide, by decide⟩
  · exact ⟨by decide, by decide, by decide⟩

theorem not_runnable_iff (t : thread) :
    runnable t = false ↔ (t.status = Status.RUNNING ∨ t.status = Status.TERMINATED) := by
  unfold runnable
  cases t.status <;> simp

theorem runnable_iff (t : thread) :
    runnable t = true ↔ (t.status = Status.INIT ∨ t.status = Status.SLEEPING) := by
  unfold runnable
  cases t.status <;> simp

/-- What the scan loop returns: the first runnable node of the list it is given. -/
theorem candidate_loop_some (l : List thread) (i j : Nat)
    (h : candidate_loop l i = some j) :
    ∃ k, j = i + k ∧ k < l.length ∧ (∃ t, l[k]? = some t ∧ runnable t = true) ∧
      ∀ k1, k1 < k → ∃ t, l[k1]? = some t ∧ runnable t = false := by
  induction l generalizing i with
  | nil => simp [candidate_loop] at h
  | cons t rest ih =>
    unfold candidate_loop at h
    split at h
    · next hr =>
      refine ⟨0, ?_, by simp, ⟨t, by simp, hr⟩,
        fun k1 hk1 => absurd hk1 (Nat.not_lt_zero _)⟩
      simpa using (Option.some.inj h).symm
    · next hr =>
      obtain ⟨k, hj, hk, hrun, hbefore⟩ := ih (i + 1) h
      refine ⟨k + 1, by omega, by simp; omega, by simpa using hrun, ?_⟩
      intro k1 hk1
      cases k1 with
      | zero => exact ⟨t, by simp, by simpa using hr⟩
      | succ k2 =>
        obtain ⟨t2, ht2, hr2⟩ := hbefore k2 (by omega)
        exact ⟨t2, by simpa using ht2, hr2⟩

/-- The scan loop on a list whose first node is runnable. -/
theorem candidate_loop_head (t : thread) (rest : List thread) (i : Nat)
    (h : runnable t = true) : candidate_loop (t :: rest) i = some i := by
  simp [candidate_loop, h]

theorem round_robin_order_get (n c k : Nat) (hk : k < n) :
    (round_robin_order n c)[k]? = some ((c + 1 + k) % n) := by
  simp [round_robin_order, List.getElem?_range hk]

/-- C3: when `candidate` returns a thread, that thread is `INIT` or `SLEEPING` and it is
the first such thread in the cyclic order that starts right after `currThread` and wraps
from the tail to the head: every thread earlier in that order is `RUNNING` or
`TERMINATED`. -/
theorem candidate_returns_first_runnable (s : Sched) (c j : Nat)
    (hc : s.currThread = some c) (hlt : c < s.head.length)
    (hj : candidate s = some j) :
    ∃ k, k < s.head.length ∧
      (round_robin_order s.head.length c)[k]? = some j ∧
      (∃ t, s.head[j]? = some t ∧
        (t.status = Status.INIT ∨ t.status = Status.SLEEPING)) ∧
      ∀ k1, k1 < k → ∃ i t, (round_robin_order s.head.length c)[k1]? = some i ∧
        s.head[i]? = some t ∧
        (t.status = Status.RUNNING ∨ t.status = Status.TERMINATED) := by
  unfold candidate at hj
  rw [hc] at hj
  simp only at hj
  split at hj
  · next hlink =>
    obtain ⟨k, hjk, hk, ⟨t, ht, hr⟩, hbefore⟩ := candidate_loop_some _ _ _ hj
    rw [List.length_drop] at hk
    have hmod : ∀ k1, k1 ≤ k → (c + 1 + k1) % s.head.length = c + 1 + k1 :=
      fun k1 hk1 => Nat.mod_eq_of_lt (by omega)
    refine ⟨k, by omega, ?_, ⟨t, ?_, (runnable_iff t).1 hr⟩, ?_⟩
    · rw [round_robin_order_get _ _ _ (by omega), hmod k (Nat.le_refl _), hjk]
    · rw [List.getElem?_drop] at ht
      rw [hjk]; exact ht
    · intro k1 hk1
      obtain ⟨t1, ht1, hr1⟩ := hbefore k1 hk1
      rw [List.getElem?_drop] at ht1
      exact ⟨c + 1 + k1, t1, by
        rw [round_robin_order_get _ _ _ (by omega), hmod k1 (Nat.le_of_lt hk1)], ht1,
        (not_runnable_iff t1).1 hr1⟩
  · next hlink =>
    have hn : c + 1 = s.head.length := by omega
    obtain ⟨k, hjk, hk, ⟨t, ht, hr⟩, hbefore⟩ := candidate_loop_some _ _ _ hj
    have hmod : ∀ k1, k1 < s.head.length → (c + 1 + k1) % s.head.length = k1 := by
      intro k1 hk1
      rw [hn, Nat.add_mod_left]
      exact Nat.mod_eq_of_lt hk1
    have hjk0 : j = k := by omega
    refine ⟨k, hk, ?_, ⟨t, by rw [hjk0]; exact ht, (runnable_iff t).1 hr⟩, ?_⟩
    · rw [round_robin_order_get _ _ _ hk, hmod k hk, hjk0]
    · intro k1 hk1
      obtain ⟨t1, ht1, hr1⟩ := hbefore k1 hk1
      exact ⟨k1, t1, by rw [round_robin_order_get _ _ _ (by omega), hmod k1 (by omega)],
        ht1, (not_runnable_iff t1).1 hr1⟩

theorem candidate_returns_first_runnable_witness :
    sample_mid.currThread = some 0 ∧ 0 < sample_mid.head.length ∧
    candidate sample_mid = some 2 ∧
    ∃ k, k < sample_mid.head.length ∧
      (round_robin_order sample_mid.head.length 0)[k]? = some 2 ∧
      (∃ t, sample_mid.head[2]? = some t ∧
        (t.status = Status.INIT ∨ t.status = Status.SLEEPING)) ∧
      ∀ k1, k1 < k → ∃ i t, (round_robin_order sample_mid.head.length 0)[k1]? = some i ∧
        sample_mid.head[i]? = some t ∧
        (t.status = Status.RUNNING ∨ t.status = Status.TERMINATED) :=
  ⟨rfl, by decide, by decide,
    candidate_returns_first_runnable sample_mid 0 2 rfl (by decide) (by decide)⟩

/-! ## Runs that break the status machine -/

/-- The node `candidate` returns is a node of the list. -/
theorem candidate_lt (s : Sched) (t : Nat) (h : candidate s = some t) :
    t < s.head.length := by
  unfold candidate at h
  split at h
  · obtain ⟨k, hk, hlt, _⟩ := candidate_loop_some _ _ _ h
    omega
  · split at h
    · obtain ⟨k, hk, hlt, _⟩ := candidate_loop_some _ _ _ h
      rw [List.length_drop] at hlt
      omega
    · obtain ⟨k, hk, hlt, _⟩ := candidate_loop_some _ _ _ h
      omega

/-- With no odd saved context a dispatched thread is inside its entry function. -/
theorem entry_point_plain (m : Machine) (t : Nat) (hs : m.saved = [])
    (ht : t < m.sched.head.length) : entry_point m t = some Control.thread := by
  unfold entry_point
  rw [List.getElem?_eq_getElem ht, hs]
  simp [List.lookup]

/-- A dispatch, then the dispatched thread gives control back, with no signal. -/
theorem step_dispatch_relinquish (s s2 : Sched) (t : Nat) (a : Action)
    (hc : candidate s = some t) (hrel : relinquish a (dispatch s t) = some s2) :
    ∃ e, e ≠ Event.alarm ∧
      run_events (boot s) [Event.dispatch, e] = some (boot s2) := by
  have hentry := entry_point_plain (boot s) t rfl (candidate_lt s t hc)
  have hd : step (boot s) Event.dispatch =
      some { sched := dispatch s t, ctl := Control.thread, saved := [] } := by
    simp only [step, boot, schedule, hc] at hentry ⊢
    simp [hentry]
  cases a with
  | yield =>
    refine ⟨Event.yield, by decide, ?_⟩
    simp only [relinquish] at hrel
    simp only [run_events]
    rw [hd]
    have hcur : (dispatch s t).currThread = some t := rfl
    simp [step, hrel, boot, save_ctx, hcur, forget]
  | ret =>
    refine ⟨Event.ret, by decide, ?_⟩
    simp only [relinquish] at hrel
    simp only [run_events]
    rw [hd]
    simp [step, hrel, boot]

theorem run_events_append (m m1 : Machine) (evs1 evs2 : List Event)
    (h : run_events m evs1 = some m1) :
    run_events m (evs1 ++ evs2) = run_events m1 evs2 := by
  induction evs1 generalizing m with
  | nil =>
    simp only [run_events] at h
    rw [Option.some.inj h]
    rfl
  | cons e rest ih =>
    simp only [run_events, List.cons_append] at h ⊢
    split at h
    · exact absurd h (by simp)
    · next m2 hm2 =>
      exact ih m2 h

/-- The loop of `scheduler_execute` is a run of the step function: the state in which it
stops is reached by dispatches, yields and returns, with `schedule()` returned. -/
theorem scheduler_loop_is_run (acts : List Action) (s s1 : Sched)
    (h : scheduler_loop acts s = some s1) :
    ∃ evs, Event.alarm ∉ evs ∧
      run_events (boot s) evs = some { sched := s1, ctl := Control.exited } := by
  have stop : ∀ s : Sched, candidate s = none →
      run_events (boot s) [Event.dispatch] = some { sched := s, ctl := Control.exited } := by
    intro s hc
    simp [run_events, step, boot, schedule, hc]
  induction acts generalizing s with
  | nil =>
    unfold scheduler_loop at h
    split at h
    · next hc =>
      have hs : s1 = s := (Option.some.inj h).symm
      subst hs
      exact ⟨[Event.dispatch], by decide, stop s1 hc⟩
    · exact absurd h (by simp)
  | cons a rest ih =>
    unfold scheduler_loop at h
    split at h
    · next hc =>
      have hs : s1 = s := (Option.some.inj h).symm
      subst hs
      exact ⟨[Event.dispatch], by decide, stop s1 hc⟩
    · next t hc =>
      simp only at h
      split at h
      · exact absurd h (by simp)
      · next s2 hrel =>
        obtain ⟨evs, hno, hrun⟩ := ih s2 h
        obtain ⟨e, he, hpre⟩ := step_dispatch_relinquish s s2 t a hc hrel
        refine ⟨[Event.dispatch, e] ++ evs, ?_, ?_⟩
        · intro hmem
          simp only [List.mem_append, List.mem_cons, List.mem_singleton,
            List.not_mem_nil, or_false] at hmem
          rcases hmem with (h1 | h1) | h1
          · exact absurd h1 (by decide)
          · exact he h1.symm
          · exact hno h1
        · rw [run_events_append _ _ _ _ hpre]
          exact hrun

/-- C2 (fails on the code): the scan does not wrap, so it misses a runnable thread that
sits at or before `currThread`.  In `stalled`, a state reached by a run, the head is
`SLEEPING`, yet `candidate` returns `NULL`. -/
theorem candidate_misses_thread_before_anchor :
    candidate stalled = none ∧
    (∃ t ∈ stalled.head, t.status = Status.SLEEPING) ∧
    run_events (boot (registered env0 [callA, callB]))
      [Event.dispatch, Event.ret, Event.dispatch, Event.yield] =
      some { sched := stalled, ctl := Control.master } := by
  refine ⟨by decide, ⟨_, List.mem_cons_self _ _, rfl⟩, by decide⟩

/-- C1 (fails on the code): the loop of `scheduler_execute` stops with a thread still
`SLEEPING`.  Two threads are registered, the one dispatched first returns, the other
yields once; the next `schedule()` finds no candidate and `destroy` releases the stack of
the sleeping thread. -/
theorem loop_stops_with_sleeping_thread :
    scheduler_loop [Action.ret, Action.yield] (registered env0 [callA, callB]) =
      some stalled ∧
    stalled.head.map (fun t => t.status) = [Status.SLEEPING, Status.TERMINATED] ∧
    (scheduler_execute [Action.ret, Action.yield] (registered env0 [callA, callB])).map
      (fun s => freed_ptrs s.mem) = some [2000001, 2000, 100001, 1000] ∧
    (run_events (boot (registered env0 [callA, callB]))
      [Event.dispatch, Event.ret, Event.dispatch, Event.yield, Event.dispatch]).map
      (fun m => (m.ctl, m.sched.head.map (fun t => t.status))) =
    some (Control.exited, [Status.SLEEPING, Status.TERMINATED]) := by
  refine ⟨by decide, by decide, by decide, by decide⟩

/-- C8 (fails on the code): a `SIGALRM` delivered while the scheduler holds control puts
a `TERMINATED` thread back to `SLEEPING`.  One thread is registered, dispatched and
returns; then the alarm fires and `handler` calls `scheduler_yield` on `currThread`. -/
theorem alarm_revives_terminated_thread :
    (run_events (boot (registered env0 [callA])) [Event.dispatch, Event.ret]).map
      (fun m => (m.ctl, m.sched.head.map (fun t => t.status))) =
      some (Control.master, [Status.TERMINATED]) ∧
    (run_events (boot (registered env0 [callA]))
      [Event.dispatch, Event.ret, Event.alarm]).map
      (fun m => (m.ctl, m.sched.head.map (fun t => t.status))) =
      some (Control.master, [Status.SLEEPING]) ∧
    (handler SIGALRM
      { head := [sample_thread Status.TERMINATED], currThread := some 0, mem := [] }).map
      (fun r => r.1.head.map (fun t => t.status)) = some [Status.SLEEPING] := by
  refine ⟨by decide, by decide, by decide⟩

/-- C7 (fails on the code): a `SIGALRM` delivered between `t->status = TERMINATED` and
`longjmp(ctx, 1)` in `schedule()` leaves a thread `RUNNING` while the scheduler holds
control, and then two threads `RUNNING`.  Threads A then B are registered.  A is
dispatched, its entry function returns and it is marked `TERMINATED`; the alarm fires,
`handler` marks A `SLEEPING` and jumps to the scheduler.  B is dispatched and yields.  A
is dispatched again: it is marked `RUNNING`, the handler returns and the interrupted
`longjmp(ctx, 1)` runs, so `candidate` is called with A `RUNNING`; it returns B, which is
marked `RUNNING` too. -/
theorem signal_leaves_thread_running :
    (run_events (boot (registered env0 [callA, callB]))
      [Event.dispatch, Event.mark_terminated]).map
      (fun m => (m.ctl, m.sched.currThread, m.sched.head.map (fun t => t.status))) =
      some (Control.leaving, some 1, [Status.INIT, Status.TERMINATED]) ∧
    (run_events (boot (registered env0 [callA, callB]))
      [Event.dispatch, Event.mark_terminated, Event.alarm]).map
      (fun m => (m.ctl, m.sched.currThread, m.sched.head.map (fun t => t.status))) =
      some (Control.master, some 1, [Status.INIT, Status.SLEEPING]) ∧
    (run_events (boot (registered env0 [callA, callB]))
      [Event.dispatch, Event.mark_terminated, Event.alarm, Event.dispatch, Event.yield,
        Event.dispatch]).map
      (fun m => (m.ctl, m.sched.currThread, m.sched.head.map (fun t => t.status))) =
      some (Control.leaving, some 1, [Status.SLEEPING, Status.RUNNING]) ∧
    (run_events (boot (registered env0 [callA, callB]))
      [Event.dispatch, Event.mark_terminated, Event.alarm, Event.dispatch, Event.yield,
        Event.dispatch, Event.jump_master]).map
      (fun m => (m.ctl, m.sched.currThread, m.sched.head.map (fun t => t.status))) =
      some (Control.master, some 1, [Status.SLEEPING, Status.RUNNING]) ∧
    (run_events (boot (registered env0 [callA, callB]))
      [Event.dispatch, Event.mark_terminated, Event.alarm, Event.dispatch, Event.yield,
        Event.dispatch, Event.jump_master, Event.dispatch]).map
      (fun m => (m.ctl, m.sched.head.map (fun t => t.status),
        m.sched.head.countP (fun t => decide (t.status = Status.RUNNING)))) =
      some (Control.thread, [Status.RUNNING, Status.RUNNING], 2) := by
  refine ⟨by decide, by decide, by decide, by decide, by decide⟩

/-! ## Status invariant of a run without signals -/

theorem set_status_length (l : List thread) (i : Nat) (st : Status) :
    (set_status l i st).length = l.length := by
  induction l generalizing i with
  | nil => rfl
  | cons t rest ih => cases i <;> simp [set_status, ih]

theorem set_status_get_ne (l : List thread) (i k : Nat) (st : Status) (h : k ≠ i) :
    (set_status l i st)[k]? = l[k]? := by
  induction l generalizing i k with
  | nil => rfl
  | cons t rest ih =>
    cases i with
    | zero =>
      cases k with
      | zero => exact absurd rfl h
      | succ k1 => simp [set_status]
    | succ i1 =>
      cases k with
      | zero => simp [set_status]
      | succ k1 => simpa [set_status] using ih i1 k1 (by omega)

theorem set_status_get_eq (l : List thread) (i : Nat) (st : Status) (t : thread)
    (h : (set_status l i st)[i]? = some t) : t.status = st := by
  induction l generalizing i with
  | nil => simp [set_status] at h
  | cons a rest ih =>
    cases i with
    | zero =>
      simp [set_status] at h
      rw [← h]
    | succ i1 =>
      simp [set_status] at h
      exact ih i1 h

theorem registered_all_init (env : Env) (calls : List Call) :
    ∀ t ∈ (registered env calls).head, t.status = Status.INIT := by
  refine foldl_create_induction env (fun s => ∀ t ∈ s.head, t.status = Status.INIT)
    ?_ calls init (by simp [init])
  intro s c hs
  by_cases hok : c.succeeds env
  · rw [create_ok_head env c s hok]
    intro t ht
    simp only [List.mem_cons] at ht
    rcases ht with rfl | ht
    · rfl
    · exact hs t ht
  · rw [(create_fail_head env c s hok).1]
    exact hs

theorem runInv_boot (env : Env) (calls : List Call) :
    RunInv (boot (registered env calls)) := by
  refine ⟨fun h => by simp [boot] at h, fun _ t ht => ?_, rfl⟩
  have := registered_all_init env calls t ht
  simp [this]

/-- After `currThread->status = st` with `st` other than `RUNNING`, no thread is
`RUNNING` if none but `currThread` was. -/
theorem none_running_after_set (l : List thread) (c : Nat) (st : Status)
    (hst : st ≠ Status.RUNNING)
    (h : ∀ i t, l[i]? = some t → t.status = Status.RUNNING → i = c) :
    ∀ t ∈ set_status l c st, t.status ≠ Status.RUNNING := by
  intro t ht hrun
  obtain ⟨k, hk⟩ := List.mem_iff_getElem?.1 ht
  by_cases hkc : k = c
  · subst hkc
    exact hst ((set_status_get_eq l k st t hk).symm.trans hrun)
  · rw [set_status_get_ne l c k st hkc] at hk
    exact hkc (h k t hk hrun)

theorem runInv_step (m m1 : Machine) (e : Event) (he : e ≠ Event.alarm)
    (hinv : RunInv m) (hstep : step m e = some m1) : RunInv m1 := by
  obtain ⟨hthread, hother, hsaved⟩ := hinv
  have hleave : ∀ (c : Nat) (st : Status) (ctl : Control) (sv : List (Nat × Saved))
      (s1 : Sched), s1.head = set_status m.sched.head c st →
      (∀ i t, m.sched.head[i]? = some t → t.status = Status.RUNNING → i = c) →
      st ≠ Status.RUNNING → ctl ≠ Control.thread → sv = [] →
      RunInv { sched := s1, ctl := ctl, saved := sv } := by
    intro c st ctl sv s1 hhead hall hst hctl hsv
    refine ⟨fun h => absurd h hctl, fun _ => ?_, hsv⟩
    show ∀ t ∈ s1.head, t.status ≠ Status.RUNNING
    rw [hhead]
    exact none_running_after_set _ c st hst hall
  have hsave : m.ctl = Control.thread → save_ctx m = [] := by
    intro hctl
    unfold save_ctx
    rw [hctl, hsaved]
    cases m.sched.currThread <;> simp [forget]
  cases e with
  | alarm => exact absurd rfl he
  | dispatch =>
    unfold step at hstep
    simp only at hstep
    split at hstep
    · next hctl =>
      have hnone := hother (by simp [hctl])
      split at hstep
      · next hc =>
        have hm1 := (Option.some.inj hstep).symm
        subst hm1
        simp only [schedule, hc]
        exact ⟨fun h => by simp at h, fun _ => hnone, hsaved⟩
      · next t hc =>
        have hentry := entry_point_plain m t hsaved (candidate_lt _ t hc)
        rw [hentry] at hstep
        have hm1 := (Option.some.inj hstep).symm
        subst hm1
        simp only [schedule, hc]
        refine ⟨fun _ => ⟨t, rfl, ?_⟩, fun h => absurd rfl h, hsaved⟩
        intro i u hu hrun
        by_contra hne
        simp only [dispatch] at hu
        rw [set_status_get_ne _ _ _ _ hne] at hu
        exact hnone u (List.mem_iff_getElem?.2 ⟨i, hu⟩) hrun
    · exact absurd hstep (by simp)
  | yield =>
    unfold step at hstep
    simp only at hstep
    split at hstep
    · next hctl =>
      obtain ⟨c, hc, hall⟩ := hthread hctl
      simp only [scheduler_yield, hc, Option.map_some'] at hstep
      have hm1 := (Option.some.inj hstep).symm
      subst hm1
      exact hleave c Status.SLEEPING Control.master _ _ rfl hall (by decide) (by decide)
        (hsave hctl)
    · exact absurd hstep (by simp)
  | ret =>
    unfold step at hstep
    simp only at hstep
    split at hstep
    · next hctl =>
      obtain ⟨c, hc, hall⟩ := hthread hctl
      simp only [thread_return, hc, Option.map_some'] at hstep
      have hm1 := (Option.some.inj hstep).symm
      subst hm1
      exact hleave c Status.TERMINATED Control.master _ _ rfl hall (by decide) (by decide) hsaved
    · exact absurd hstep (by simp)
  | mark_sleeping =>
    unfold step at hstep
    simp only at hstep
    split at hstep
    · next hctl =>
      obtain ⟨c, hc, hall⟩ := hthread hctl
      simp only [scheduler_yield, hc, Option.map_some'] at hstep
      have hm1 := (Option.some.inj hstep).symm
      subst hm1
      exact hleave c Status.SLEEPING Control.leaving _ _ rfl hall (by decide) (by decide)
        (hsave hctl)
    · exact absurd hstep (by simp)
  | mark_terminated =>
    unfold step at hstep
    simp only at hstep
    split at hstep
    · next hctl =>
      obtain ⟨c, hc, hall⟩ := hthread hctl
      simp only [thread_return, hc, Option.map_some'] at hstep
      have hm1 := (Option.some.inj hstep).symm
      subst hm1
      exact hleave c Status.TERMINATED Control.leaving _ _ rfl hall (by decide) (by decide) hsaved
    · exact absurd hstep (by simp)
  | jump_master =>
    unfold step at hstep
    simp only at hstep
    split at hstep
    · next hctl =>
      have hnone := hother (by simp [hctl])
      have hm1 := (Option.some.inj hstep).symm
      subst hm1
      exact ⟨fun h => by simp at h, fun _ => hnone, hsaved⟩
    · exact absurd hstep (by simp)

theorem runInv_run (evs : List Event) (m m1 : Machine) (hno : Event.alarm ∉ evs)
    (hinv : RunInv m) (hrun : run_events m evs = some m1) : RunInv m1 := by
  induction evs generalizing m with
  | nil =>
    simp only [run_events] at hrun
    exact (Option.some.inj hrun) ▸ hinv
  | cons e rest ih =>
    simp only [run_events] at hrun
    split at hrun
    · exact absurd hrun (by simp)
    · next m2 hm2 =>
      have hne : e ≠ Event.alarm := fun h => hno (h ▸ List.mem_cons_self _ _)
      exact ih m2 (fun h => hno (List.mem_cons_of_mem _ h))
        (runInv_step m m2 e hne hinv hm2) hrun

/-- The number of `RUNNING` threads is at most one when all but one position are not. -/
theorem countP_running_le_one (l : List thread) (c : Nat)
    (h : ∀ i t, l[i]? = some t → t.status = Status.RUNNING → i = c) :
    l.countP (fun t => decide (t.status = Status.RUNNING)) ≤ 1 := by
  induction l generalizing c with
  | nil => simp
  | cons a rest ih =>
    rw [List.countP_cons]
    cases c with
    | zero =>
      have hrest : rest.countP (fun t => decide (t.status = Status.RUNNING)) = 0 := by
        rw [List.countP_eq_zero]
        intro t ht
        obtain ⟨k, hk⟩ := List.mem_iff_getElem?.1 ht
        simp only [decide_eq_true_eq]
        intro hrun
        have := h (k + 1) t (by simpa using hk) hrun
        omega
      rw [hrest]
      split <;> omega
    | succ c1 =>
      have ha : a.status ≠ Status.RUNNING := by
        intro hrun
        have := h 0 a (by simp) hrun
        omega
      have := ih c1 (fun i t hi hrun => by
        have := h (i + 1) t (by simpa using hi) hrun
        omega)
      simp [ha]
      exact this

/-- When no `SIGALRM` is delivered during the run, so that every yield is a voluntary
`scheduler_yield()`, at most one thread is `RUNNING` in every state reached from
registrations, and none is unless a thread is inside its entry function. -/
theorem at_most_one_running_without_signal (env : Env) (calls : List Call) (evs : List Event)
    (m : Machine) (hno : Event.alarm ∉ evs)
    (hrun : run_events (boot (registered env calls)) evs = some m) :
    m.sched.head.countP (fun t => decide (t.status = Status.RUNNING)) ≤ 1 ∧
    (m.ctl ≠ Control.thread → ∀ t ∈ m.sched.head, t.status ≠ Status.RUNNING) ∧
    (m.ctl = Control.thread →
      ∃ c, m.sched.currThread = some c ∧
        ∀ i t, m.sched.head[i]? = some t → t.status = Status.RUNNING → i = c) := by
  have hinv := runInv_run evs _ m hno (runInv_boot env calls) hrun
  refine ⟨?_, hinv.2.1, hinv.1⟩
  by_cases hctl : m.ctl = Control.thread
  · obtain ⟨c, _, hall⟩ := hinv.1 hctl
    exact countP_running_le_one _ c hall
  · have hnone := hinv.2.1 hctl
    have : m.sched.head.countP (fun t => decide (t.status = Status.RUNNING)) = 0 := by
      rw [List.countP_eq_zero]
      intro t ht
      simpa using hnone t ht
    omega

theorem at_most_one_running_without_signal_witness :
    Event.alarm ∉ [Event.dispatch, Event.yield, Event.dispatch] ∧
    run_events (boot (registered env0 [callA, callB]))
      [Event.dispatch, Event.yield, Event.dispatch] = some sample_running ∧
    sample_running.sched.head.countP (fun t => decide (t.status = Status.RUNNING)) ≤ 1 :=
  ⟨by decide, by decide,
    (at_most_one_running_without_signal env0 [callA, callB]
      [Event.dispatch, Event.yield, Event.dispatch]
      sample_running (by decide) (by decide)).1⟩

/-! ## Order of the first dispatches -/

/-- When the node right after `currThread` in the cyclic order is runnable, `candidate`
returns it. -/
theorem candidate_next (s : Sched) (c : Nat) (t : thread)
    (hc : s.currThread = some c) (hlt : c < s.head.length)
    (ht : s.head[(c + 1) % s.head.length]? = some t) (hr : runnable t = true) :
    candidate s = some ((c + 1) % s.head.length) := by
  unfold candidate
  rw [hc]
  simp only
  split
  · next hlink =>
    have hmod : (c + 1) % s.head.length = c + 1 := Nat.mod_eq_of_lt hlink
    rw [hmod] at ht ⊢
    rw [List.drop_eq_getElem_cons hlink]
    have : s.head[c + 1] = t := by
      rw [List.getElem?_eq_getElem hlink] at ht
      exact Option.some.inj ht
    rw [this]
    exact candidate_loop_head t _ _ hr
  · next hlink =>
    have hn : c + 1 = s.head.length := by omega
    have hmod : (c + 1) % s.head.length = 0 := by rw [hn]; exact Nat.mod_self _
    rw [hmod] at ht ⊢
    cases hl : s.head with
    | nil => rw [hl] at ht; simp at ht
    | cons a rest =>
      rw [hl] at ht
      simp only [List.getElem?_cons_zero, Option.some.injEq] at ht
      rw [ht]
      exact candidate_loop_head t _ _ hr

theorem add_mod_ne_self (n c d : Nat) (hc : c < n) (hd : 0 < d) (hdn : d < n) :
    (c + d) % n ≠ c := by
  by_cases h : c + d < n
  · rw [Nat.mod_eq_of_lt h]; omega
  · have : c + d = (c + d - n) + n := by omega
    rw [this, Nat.add_mod_right, Nat.mod_eq_of_lt (by omega)]
    omega

theorem relinquish_after_dispatch (a : Action) (s : Sched) (t : Nat) :
    ∃ st, relinquish a (dispatch s t) =
      some { head := set_status (set_status s.head t Status.RUNNING) t st,
             currThread := some t, mem := s.mem } := by
  cases a
  · exact ⟨Status.SLEEPING, rfl⟩
  · exact ⟨Status.TERMINATED, rfl⟩

/-- While the next `j` nodes after `currThread` in the cyclic order are all `INIT`, the
next `j` dispatches take them in that order, whatever the dispatched threads do. -/
theorem dispatch_order_fresh (j : Nat) :
    ∀ (acts : List Action) (s : Sched) (c n : Nat),
      s.head.length = n → s.currThread = some c → c < n → j ≤ n →
      j ≤ acts.length + 1 →
      (∀ k, k < j → ∃ t, s.head[(c + 1 + k) % n]? = some t ∧ t.status = Status.INIT) →
      (dispatch_order acts s).take j = (List.range j).map (fun k => (c + 1 + k) % n) := by
  induction j with
  | zero => intros; simp
  | succ j ih =>
    intro acts s c n hn hc hlt hjn hja hinit
    subst hn
    obtain ⟨t0, ht0, hs0⟩ := hinit 0 (by omega)
    have hcand : candidate s = some ((c + 1) % s.head.length) :=
      candidate_next s c t0 hc hlt (by simpa using ht0) (by simp [runnable, hs0])
    have hnpos : 0 < s.head.length := by omega
    have hc1 : (c + 1) % s.head.length < s.head.length := Nat.mod_lt _ hnpos
    have hshift : ∀ k, (c + 1 + (k + 1)) % s.head.length =
        ((c + 1) % s.head.length + 1 + k) % s.head.length := by
      intro k
      rw [Nat.add_assoc ((c + 1) % s.head.length), Nat.mod_add_mod]
      congr 1
      omega
    rw [List.range_succ_eq_map, List.map_cons, List.map_map]
    unfold dispatch_order
    rw [hcand]
    simp only [List.take_succ_cons, Nat.add_zero]
    congr 1
    cases acts with
    | nil =>
      have : j = 0 := by simpa using hja
      subst this
      simp
    | cons a rest =>
      obtain ⟨st, hrel⟩ := relinquish_after_dispatch a s ((c + 1) % s.head.length)
      simp only [hrel]
      have hlen : (set_status (set_status s.head ((c + 1) % s.head.length) Status.RUNNING)
          ((c + 1) % s.head.length) st).length = s.head.length := by
        rw [set_status_length, set_status_length]
      have key := ih rest
        { head := set_status (set_status s.head ((c + 1) % s.head.length) Status.RUNNING)
            ((c + 1) % s.head.length) st,
          currThread := some ((c + 1) % s.head.length), mem := s.mem }
        ((c + 1) % s.head.length) s.head.length hlen rfl hc1 (by omega)
        (by simp only [List.length_cons] at hja; omega)
        (by
          intro k hk
          obtain ⟨t, ht, hst⟩ := hinit (k + 1) (by omega)
          refine ⟨t, ?_, hst⟩
          have hne : ((c + 1) % s.head.length + 1 + k) % s.head.length ≠
              (c + 1) % s.head.length := by
            rw [Nat.add_assoc]
            exact add_mod_ne_self _ _ _ hc1 (by omega) (by omega)
          show (set_status (set_status s.head ((c + 1) % s.head.length) Status.RUNNING)
            ((c + 1) % s.head.length) st)[((c + 1) % s.head.length + 1 + k) %
              s.head.length]? = some t
          rw [set_status_get_ne _ _ _ _ hne, set_status_get_ne _ _ _ _ hne, ← hshift k]
          exact ht)
      rw [key]
      apply List.map_congr_left
      intro k _
      simp only [Function.comp_apply, Nat.succ_eq_add_one]
      exact (hshift k).symm

/-- After any registrations `currThread` is `NULL` on an empty list and the head
otherwise. -/
theorem registered_anchor (env : Env) (calls : List Call) :
    ((registered env calls).head = [] ∧ (registered env calls).currThread = none) ∨
    ((registered env calls).head ≠ [] ∧ (registered env calls).currThread = some 0) := by
  refine foldl_create_induction env
    (fun s => (s.head = [] ∧ s.currThread = none) ∨ (s.head ≠ [] ∧ s.currThread = some 0))
    ?_ calls init (Or.inl ⟨rfl, rfl⟩)
  intro s c hs
  by_cases hok : c.succeeds env
  · rw [create_ok_head env c s hok]
    exact Or.inr ⟨by simp, rfl⟩
  · rw [(create_fail_head env c s hok).1, (create_fail_head env c s hok).2]
    exact hs

theorem foldl_create_entries (env : Env) (calls : List Call) :
    ∀ s : Sched, (∀ c ∈ calls, c.succeeds env) →
      (calls.foldl (fun s c => (scheduler_create env c.m s c.fnc c.arg).2) s).head.map
        (fun t => (t.fnc, t.arg)) =
      calls.reverse.map (fun c => (c.fnc, c.arg)) ++ s.head.map (fun t => (t.fnc, t.arg)) := by
  induction calls with
  | nil => intro s _; simp
  | cons c rest ih =>
    intro s hok
    rw [List.foldl_cons, ih _ (fun d hd => hok d (List.mem_cons_of_mem _ hd)),
      create_ok_head env c s (hok c (List.mem_cons_self _ _))]
    simp

/-- C9 (as stated, fails): the first dispatch of a run picks position 1 of a list of
two: `callB` is registered last and is the head, but the thread of `callA` is dispatched
first. -/
theorem first_dispatch_skips_head :
    (registered env0 [callA, callB]).head.map (fun t => t.fnc) = [callB.fnc, callA.fnc] ∧
    (schedule (registered env0 [callA, callB])).sched.currThread = some 1 ∧
    (dispatch_order [] (registered env0 [callA, callB])).head? = some 1 ∧
    ¬ (dispatch_order [] (registered env0 [callA, callB])).head? = some 0 := by
  refine ⟨by decide, by decide, by decide, by decide⟩

/-- C9 (amended): with `N ≥ 1` threads registered by successful `scheduler_create` calls,
position 0 of the list is the most recent registration, and whatever the dispatched
threads do (yield or return) the `k`-th dispatch, `k = 0, ..., N - 1`, is of the thread
at position `(k + 1) mod N`: the first thread dispatched is the one right after the head
(the head itself only when `N = 1`), the first dispatches go down the list to the oldest
registration, and the head is dispatched last. -/
theorem first_dispatches_start_after_head (env : Env) (calls : List Call)
    (acts : List Action) (hok : ∀ c ∈ calls, c.succeeds env) (hN : 1 ≤ calls.length)
    (hacts : calls.length ≤ acts.length + 1) :
    (registered env calls).head.map (fun t => (t.fnc, t.arg)) =
      calls.reverse.map (fun c => (c.fnc, c.arg)) ∧
    (dispatch_order acts (registered env calls)).head? = some (1 % calls.length) ∧
    (dispatch_order acts (registered env calls)).take calls.length =
      round_robin_order calls.length 0 := by
  obtain ⟨_, _, hlen⟩ := registered_ok_log env calls hok
  have hcur : (registered env calls).currThread = some 0 := by
    rcases registered_anchor env calls with h | h
    · have := h.1
      rw [← List.length_eq_zero] at this
      omega
    · exact h.2
  have hinit : ∀ k, k < calls.length →
      ∃ t, (registered env calls).head[(0 + 1 + k) % calls.length]? = some t ∧
        t.status = Status.INIT := by
    intro k _
    have hlt : (0 + 1 + k) % calls.length < (registered env calls).head.length := by
      rw [hlen]; exact Nat.mod_lt _ (by omega)
    refine ⟨(registered env calls).head[(0 + 1 + k) % calls.length],
      List.getElem?_eq_getElem hlt, ?_⟩
    exact registered_all_init env calls _ (List.getElem_mem _)
  have htake := dispatch_order_fresh calls.length acts (registered env calls) 0
    calls.length hlen hcur (by omega) (Nat.le_refl _) hacts hinit
  refine ⟨?_, ?_, htake⟩
  · have := foldl_create_entries env calls init hok
    simpa [registered, init] using this
  · have h1 := dispatch_order_fresh 1 acts (registered env calls) 0
      calls.length hlen hcur (by omega) hN (by omega) (fun k hk => hinit k (by omega))
    have h2 : (List.take 1 (dispatch_order acts (registered env calls))).head? =
        some (1 % calls.length) := by rw [h1]; rfl
    rw [← h2]
    cases dispatch_order acts (registered env calls) <;> rfl

theorem first_dispatches_start_after_head_witness :
    (∀ c ∈ [callA, callB], c.succeeds env0) ∧ 1 ≤ [callA, callB].length ∧
    [callA, callB].length ≤ [Action.yield, Action.ret].length + 1 ∧
    (dispatch_order [Action.yield, Action.ret] (registered env0 [callA, callB])).take 2 =
      [1, 0] :=
  ⟨sample_calls_succeed, by decide, by decide,
    (first_dispatches_start_after_head env0 [callA, callB] [Action.yield, Action.ret]
      sample_calls_succeed (by decide) (by decide)).2.2⟩

end Scheduler
